import Mathlib

/-
Verification of the rotatelog repository (Go) against its natural-language
specification, via a shallow embedding in Lean 4.

The repository carries three revisions of the same `rotatelog` package:
  * `log.go`            — the named revision (channel-driven scheduler,
                          `Rotate`, `compress`, `cleanOldLogs`, `isOverdue`,
                          `StartRotate`, `Stop`, `NewLevel`);
  * `unnamed/part_000`  — a revision with `startRotateRoutine` and a
                          `.gz`-aware `cleanOldLogs`;
  * `unnamed/part_001`  — a revision with the stored-label idempotence guard
                          in `rotate`, the compare-and-swap single-flight
                          guard in `compress`, and `SetLogParam`.
Definitions below are grouped in namespaces `LogGo`, `P0` and `P1` after the
revision they embed; shared machinery (time, formats, levels) is common to
all three revisions, whose copies of it are textually identical.

Modelling conventions:
  * Go `time.Time` values are `Int` nanoseconds since 1970-01-01 00:00:00 in
    the local zone (the code formats and parses everything with
    `time.Local`, and only differences of times in the same zone are ever
    compared, so the zone offset cancels and is not modelled).
  * Go `time.Duration` values are `Int` nanoseconds.
  * Nondeterministic external inputs (`time.Now()`, the success or failure
    of `os.Rename` / `os.OpenFile` / `io.Copy`) are explicit parameters;
    each fallible call consumes one `Option GoErr` result in source order.
  * File-system side effects are recorded as an `FSOp` trace in the order
    the source performs them, so "performs no rename / open / creation"
    is the trace being empty.
-/

set_option autoImplicit false

namespace Rotatelog

/-- Go error values are modelled by their message strings; `none` in an
`Option GoErr` position means the nil error. -/
abbrev GoErr := String

/-! ## Time model

Nanosecond counts and the four suffix layouts of the source
(`formatDay`, `formatHour`, `formatMin`, `formatSec`). -/

def nsPerSecond : Int := 1000000000

def secondNs : Int := nsPerSecond

def minuteNs : Int := 60 * secondNs

def hourNs : Int := 3600 * secondNs

def dayNs : Int := 86400 * secondNs

def formatDay : String := "20060102"

def formatHour : String := "2006010215"

def formatMin : String := "200601021504"

def formatSec : String := "20060102150405"

/-- Civil date from a count of days since 1970-01-01, by the standard
era-based algorithm; returns (year, month, day). -/
def civilFromDays (z0 : Int) : Int × Int × Int :=
  let z := z0 + 719468
  let era := z.fdiv 146097
  let doe := z - era * 146097
  let yoe := (doe - doe / 1460 + doe / 36524 - doe / 146096) / 365
  let y := yoe + era * 400
  let doy := doe - (365 * yoe + yoe / 4 - yoe / 100)
  let mp := (5 * doy + 2) / 153
  let d := doy - (153 * mp + 2) / 5 + 1
  let m := mp + (if mp < 10 then 3 else -9)
  (y + (if m ≤ 2 then 1 else 0), m, d)

/-- Days since 1970-01-01 of a civil date, inverse of `civilFromDays`. -/
def daysFromCivil (y0 m d : Int) : Int :=
  let y := y0 - (if m ≤ 2 then 1 else 0)
  let era := y.fdiv 400
  let yoe := y - era * 400
  let doy := (153 * (m + (if m > 2 then -3 else 9)) + 2) / 5 + d - 1
  let doe := yoe * 365 + yoe / 4 - yoe / 100 + doy
  era * 146097 + doe - 719468

def isLeap (y : Int) : Bool :=
  y % 4 = 0 ∧ (y % 100 ≠ 0 ∨ y % 400 = 0)

def daysInMonth (y m : Int) : Int :=
  if m = 2 then (if isLeap y then 29 else 28)
  else if m = 4 ∨ m = 6 ∨ m = 9 ∨ m = 11 then 30
  else 31

/-- Zero-padded fixed-width decimal rendering of a nonnegative integer,
as Go's reference-layout formatting produces for each field. -/
def pad (w : Nat) (n : Int) : String :=
  let s := toString n.toNat
  String.mk (List.replicate (w - s.length) '0') ++ s

/-- Go `t.Format(layout)` for the four layouts used by the source.  Only
those four layouts ever reach `Format` in the repository. -/
def formatTime (fmt : String) (tNs : Int) : String :=
  let secs := tNs.fdiv nsPerSecond
  let days := secs.fdiv 86400
  let rem := secs.fmod 86400
  let ymd := civilFromDays days
  let base := pad 4 ymd.1 ++ pad 2 ymd.2.1 ++ pad 2 ymd.2.2
  let hh := rem / 3600
  let mi := (rem.fmod 3600) / 60
  let ss := rem.fmod 60
  if fmt = formatDay then base
  else if fmt = formatHour then base ++ pad 2 hh
  else if fmt = formatMin then base ++ pad 2 hh ++ pad 2 mi
  else if fmt = formatSec then base ++ pad 2 hh ++ pad 2 mi ++ pad 2 ss
  else ""

/-- Nonempty all-digit character lists read as a decimal number, as Go's
time parser reads each fixed-width numeric field. -/
def digitsToNat? (cs : List Char) : Option Nat :=
  if cs ≠ [] ∧ cs.all Char.isDigit then
    some (cs.foldl (fun a c => 10 * a + (c.toNat - 48)) 0)
  else none

def sliceNat? (cs : List Char) (off len : Nat) : Option Nat :=
  digitsToNat? ((cs.drop off).take len)

/-- Go `time.ParseInLocation(layout, value, time.Local)` for the four
layouts of the source: the value must have exactly the layout's width,
each field must be numeric, and out-of-range months, days (against the
month's length), hours, minutes and seconds are rejected, as Go's parser
rejects them.  Returns nanoseconds on the same local scale as `formatTime`. -/
def parseTime (fmt : String) (s : String) : Option Int := do
  let cs := s.toList
  if cs.length ≠ fmt.length then none else
  if ¬(fmt = formatDay ∨ fmt = formatHour ∨ fmt = formatMin ∨ fmt = formatSec) then none else
  let y ← sliceNat? cs 0 4
  let mo ← sliceNat? cs 4 2
  let dd ← sliceNat? cs 6 2
  let hh ← if fmt = formatDay then pure 0 else sliceNat? cs 8 2
  let mi ← if fmt = formatMin ∨ fmt = formatSec then sliceNat? cs 10 2 else pure 0
  let ss ← if fmt = formatSec then sliceNat? cs 12 2 else pure 0
  if mo < 1 ∨ 12 < mo then none else
  if dd < 1 ∨ daysInMonth (y : Int) (mo : Int) < (dd : Int) then none else
  if 23 < hh ∨ 59 < mi ∨ 59 < ss then none else
  some ((daysFromCivil (y : Int) (mo : Int) (dd : Int) * 86400
          + (hh : Int) * 3600 + (mi : Int) * 60 + (ss : Int)) * nsPerSecond)

/-- Go `t.Truncate(d)`: the identity for `d ≤ 0`, otherwise rounding down
to a multiple of `d` (the source only truncates nonnegative modern times,
for which flooring since the epoch agrees with Go's rounding toward its
zero time for every duration the source selects). -/
def truncDur (d t : Int) : Int :=
  if d ≤ 0 then t else t - t.fmod d

/-! ## Levels (identical in all three revisions) -/

inductive Level where
  | debug
  | info
  | notice
  | warning
  | error
  | critical
deriving DecidableEq

/-- Source `NewLevel`: look the name up in the `levelNames` map and fall
back to `LevelError` when absent.  The map literal is embedded as the
corresponding equality chain over its six keys. -/
def NewLevel (name : String) : Level :=
  if name = "debug" then .debug
  else if name = "info" then .info
  else if name = "notice" then .notice
  else if name = "warning" then .warning
  else if name = "error" then .error
  else if name = "critical" then .critical
  else .error

/-! ## File-system operation traces -/

/-- One file-system call performed by the code, with whether it succeeded.
Traces list the calls in source order; an empty trace is "no I/O". -/
inductive FSOp where
  | rename (src dst : String) (ok : Bool)
  | openFile (path : String) (ok : Bool)
  | remove (path : String)
deriving DecidableEq

def FSOp.isRename : FSOp → Bool
  | .rename _ _ _ => true
  | _ => false

/-- Rotation parameters (`RotateConfig` in `log.go` and `part_000`,
`LogParam` in `part_001`; the three field types coincide). -/
structure RotateConfig where
  Rotate : Int
  Duration : Int
  Compress : Bool
deriving DecidableEq

/-- Source `isOverdue` of `log.go` (which receives `now` as an argument;
`part_000`'s copy reads `time.Now()` itself but is otherwise identical):
a timestamp string that fails to parse is reported and the function
returns false (the early return), otherwise the file is due exactly when
`now - wt > Duration * Rotate`.  Returns (due, parse-failure-reported). -/
def isOverdue (fmt : String) (duration rotateN : Int) (now : Int) (ts : String) :
    Bool × Bool :=
  match parseTime fmt ts with
  | none => (false, true)
  | some wt => (if now - wt > duration * rotateN then true else false, false)

/-! ## Regular-expression matching used by the retention sweeps

The sweeps compile `[0-9]{n}` (optionally followed by `\.gz`) and call
`FindString`, which returns the leftmost substring of exactly `n` digits
(resp. `n` digits then ".gz"), or the empty string when there is none;
the sweep loops treat the empty string as no match. -/

def headRunMatch (n : Nat) (cs : List Char) : Bool :=
  n ≤ cs.length ∧ (cs.take n).all Char.isDigit

def findDigitRun (n : Nat) : List Char → Option String
  | [] => none
  | c :: cs =>
      if headRunMatch n (c :: cs) then some (String.mk ((c :: cs).take n))
      else findDigitRun n cs

def findDigitRunGz (n : Nat) : List Char → Option String
  | [] => none
  | c :: cs =>
      if headRunMatch n (c :: cs) ∧ ((c :: cs).drop n).take 3 = ['.', 'g', 'z'] then
        some (String.mk ((c :: cs).take n ++ ['.', 'g', 'z']))
      else findDigitRunGz n cs

/-- Source `strings.Replace(fs, ".gz", "", 1)`: drop the first occurrence
of ".gz". -/
def replaceFirstGz : List Char → List Char
  | [] => []
  | '.' :: 'g' :: 'z' :: rest => rest
  | c :: cs => c :: replaceFirstGz cs

def stripGzOnce (s : String) : String :=
  String.mk (replaceFirstGz s.toList)

end Rotatelog

namespace Rotatelog.LogGo

/-! ## The `log.go` revision -/

/-- Suffix-format selection performed at the top of `log.go`'s `Rotate`
(lines 116-120): second-level below one minute, minute-level otherwise. -/
def rotateSuffixFormat (duration : Int) : String :=
  if duration < minuteNs then formatSec else formatMin

/-- Engine state of `log.go`'s `Logger` as far as `Rotate` reads it:
`writerFile` is `some name` exactly when the writer `l.w` is an
`*os.File` whose `Name()` is `name` (the type switch's first case). -/
structure LoggerSt where
  rotateCfg : RotateConfig
  writerFile : Option String
  suffixFormat : String
deriving DecidableEq

structure RotateRes where
  st : LoggerSt
  ret : Option GoErr
  ops : List FSOp
  asyncSpawned : Bool
deriving DecidableEq

/-- Source `Rotate` of `log.go` (lines 114-167).  `now` is the value of
`time.Now()`; `renameRes`, `openRes` and `renameBackRes` are the outcomes
of the three fallible calls in source order (`none` = nil error).  On open
failure the result of the restoring rename is discarded by the source
(`os.Rename(targetLogName, fileName)` as a bare statement) and the named
return `err` still holds the open error. -/
def Rotate (l0 : LoggerSt) (now : Int)
    (renameRes openRes renameBackRes : Option GoErr) : RotateRes :=
  let l := { l0 with suffixFormat := rotateSuffixFormat l0.rotateCfg.Duration }
  match l.writerFile with
  | none => ⟨l, none, [], false⟩
  | some fileName =>
      let suffix := formatTime l.suffixFormat (truncDur l.rotateCfg.Duration now)
      let targetLogName := fileName ++ "." ++ suffix
      match renameRes with
      | some e => ⟨l, some e, [.rename fileName targetLogName false], false⟩
      | none =>
          match openRes with
          | some e =>
              ⟨l, some e,
                [.rename fileName targetLogName true, .openFile fileName false,
                 .rename targetLogName fileName renameBackRes.isNone], false⟩
          | none =>
              ⟨l, none,
                [.rename fileName targetLogName true, .openFile fileName true], true⟩

structure CompressRes where
  fs : List String
  removed : Bool
  ret : Option GoErr
  diags : Nat
deriving DecidableEq

/-- Source `compress` of `log.go` (lines 249-292) over a file system
modelled as the list of existing paths.  `openRes`, `createRes`, `copyRes`
are the outcomes of `os.Open`, `os.OpenFile` (of the `.gz` target, with
`O_TRUNC|O_CREATE`) and `io.Copy`.  The deferred cleanup removes `path`
exactly when the named return `err` is nil at exit; the close and flush
calls in the defer do not touch `path`. -/
def compress (fs : List String) (path : String)
    (openRes createRes copyRes : Option GoErr) : CompressRes :=
  match openRes with
  | some e => ⟨fs, false, some e, 1⟩
  | none =>
      let gfn := path ++ ".gz"
      match createRes with
      | some e => ⟨fs, false, some e, 1⟩
      | none =>
          let fs1 := if gfn ∈ fs then fs else fs ++ [gfn]
          match copyRes with
          | some e => ⟨fs1, false, some e, 1⟩
          | none => ⟨fs1.erase path, true, none, 0⟩

def errInvalidRotateConfig : GoErr := "invalid log rotate config"

structure StartRes where
  ret : Option GoErr
  loopStarted : Bool
  cfgAfter : Option RotateConfig
deriving DecidableEq

/-- Source `StartRotate` of `log.go` (lines 209-230): reject a nil config,
`Rotate <= 0`, or `Duration < 1*time.Second` with `errInvalidRotateConfig`
before any channel or goroutine is created; otherwise launch the rotation
loop.  The config itself is never written. -/
def StartRotate (rotateCfg : Option RotateConfig) : StartRes :=
  match rotateCfg with
  | none => ⟨some errInvalidRotateConfig, false, none⟩
  | some cfg =>
      if cfg.Rotate ≤ 0 ∨ cfg.Duration < secondNs then
        ⟨some errInvalidRotateConfig, false, some cfg⟩
      else ⟨none, true, some cfg⟩

/-! ### The rotation goroutine of `StartRotate` and `Stop`

The goroutine loops forever over: compute the wait to the next bucket
boundary, `select` on `<-l.rotateCh` and `<-time.After(wait)`, then call
`l.Rotate()`.  `Stop` runs `closeChannel`, which closes `l.rotateCh` and
sets the field to nil; the goroutine re-reads the field on each iteration
and can observe it either closed (a receive completes immediately) or nil
(that case blocks forever and the timer case fires instead).  Nothing in
the source ever sends on `rotateCh`. -/

inductive ChanSt where
  | opened
  | closedCh
  | nilCh
deriving DecidableEq

inductive SelectOut where
  | fromChannel
  | fromTimer
  | stillBlocked
deriving DecidableEq

/-- Outcome of the loop's `select` given the channel field's state and
whether the `time.After` timer has fired yet. -/
def selectStep (ch : ChanSt) (timerFired : Bool) : SelectOut :=
  match ch with
  | .closedCh => .fromChannel
  | .opened => if timerFired then .fromTimer else .stillBlocked
  | .nilCh => if timerFired then .fromTimer else .stillBlocked

structure LoopIter where
  rotateCalled : Bool
  loopExits : Bool
deriving DecidableEq

/-- Rest of the loop body after the `select`: both `select` cases fall
through to the unconditional `l.Rotate()` call, and the `for` loop has no
`break` or `return`, so no iteration exits the loop. -/
def loopBody (sel : SelectOut) : LoopIter :=
  match sel with
  | .stillBlocked => ⟨false, false⟩
  | .fromChannel => ⟨true, false⟩
  | .fromTimer => ⟨true, false⟩

/-- Channel-field states the rotation goroutine can observe after `Stop`
(that is, `closeChannel`) returns: the close is visible at once, the nil
assignment races with the goroutine's next read of the field. -/
def Stop (ch : ChanSt) : List ChanSt :=
  match ch with
  | .opened => [.closedCh, .nilCh]
  | .closedCh => [.closedCh, .nilCh]
  | .nilCh => [.nilCh]

end Rotatelog.LogGo

namespace Rotatelog.P1

/-! ## The `unnamed/part_001` revision -/

open Rotatelog

/-- Engine state of `part_001`'s `Logger` as far as `rotate`, `compress`
and `SetLogParam` read it; `fdOpen` is `l.fd != nil`. -/
structure St where
  param : RotateConfig
  fileName : String
  lastSuffix : String
  fdOpen : Bool
  suffixFormat : String
deriving DecidableEq

/-- Source `genSuffixStr` of `part_001` (lines 115-120): empty when no
suffix format is set, else the current time rendered with it (this
revision formats the raw `time.Now()`, without truncation). -/
def genSuffixStr (l : St) (now : Int) : String :=
  if l.suffixFormat = "" then "" else formatTime l.suffixFormat now

structure RotateRes where
  st : St
  ret : Option GoErr
  ops : List FSOp
  spawnedCompress : Bool
  spawnedClean : Bool
deriving DecidableEq

/-- Source `rotate` of `part_001` (lines 221-258).  A freshly computed
suffix equal to the stored `lastSuffix` (or a still-empty `lastSuffix`,
or a missing duration / fd / file name) returns nil with no file-system
call.  Note that in the open-failure branch the source shadows `err` with
the restoring rename's result and returns that. -/
def rotate (l : St) (now : Int)
    (renameRes openRes renameBackRes : Option GoErr) : RotateRes :=
  if l.param.Duration = 0 ∨ l.fdOpen = false ∨ l.fileName = "" then
    ⟨l, none, [], false, false⟩
  else
    let suffix := genSuffixStr l now
    if l.lastSuffix = "" then ⟨{ l with lastSuffix := suffix }, none, [], false, false⟩
    else if l.lastSuffix = suffix then ⟨l, none, [], false, false⟩
    else
      let nf := l.fileName ++ "." ++ suffix
      match renameRes with
      | some e => ⟨l, some e, [.rename l.fileName nf false], false, false⟩
      | none =>
          match openRes with
          | some _e =>
              ⟨l, renameBackRes,
                [.rename l.fileName nf true, .openFile l.fileName false,
                 .rename nf l.fileName renameBackRes.isNone], false, false⟩
          | none =>
              ⟨{ l with lastSuffix := suffix }, none,
                [.rename l.fileName nf true, .openFile l.fileName true],
                l.param.Compress, true⟩

structure CompressRes where
  fs : List String
  removed : Bool
  diags : Nat
  compressingAfter : Bool
deriving DecidableEq

/-- Source `compress` of `part_001` (lines 121-170): the opening
compare-and-swap of `l.compressing` from 0 to 1 fails when a job is
already in flight, and the function returns at once — before any file is
opened, written or removed and before any diagnostic is emitted.  When it
enters, the deferred cleanup removes `path` exactly when `suc` was set,
which happens only after open, create and copy all succeeded, and the
deferred compare-and-swap releases the flag. -/
def compress (compressing : Bool) (fs : List String) (path : String)
    (openRes createRes copyRes : Option GoErr) : CompressRes :=
  if compressing then ⟨fs, false, 0, compressing⟩
  else
    match openRes with
    | some _ => ⟨fs, false, 1, false⟩
    | none =>
        let gfn := path ++ ".gz"
        match createRes with
        | some _ => ⟨fs, false, 1, false⟩
        | none =>
            let fs1 := if gfn ∈ fs then fs else fs ++ [gfn]
            match copyRes with
            | some _ => ⟨fs1, false, 1, false⟩
            | none => ⟨fs1.erase path, true, 0, false⟩

/-- Helper: as soon as the freshly computed suffix equals the stored
`lastSuffix`, `rotate` returns nil and performs no file-system call, for
every outcome of the (never reached) fallible calls. -/
theorem rotate_noop_of_eq (l : St) (now : Int) (r o rb : Option GoErr)
    (h : l.lastSuffix = genSuffixStr l now) :
    (rotate l now r o rb).ret = none ∧ (rotate l now r o rb).ops = [] := by
  unfold rotate
  by_cases hg : l.param.Duration = 0 ∨ l.fdOpen = false ∨ l.fileName = ""
  · simp [hg]
  · by_cases he : l.lastSuffix = ""
    · simp [hg, he]
    · simp [hg, he, ← h]

/-- Helper: a fully successful rotation out of a different bucket renames
once, opens once, and stores the fresh suffix. -/
theorem rotate_success_eq (l : St) (now : Int) (rb : Option GoErr)
    (hg : ¬(l.param.Duration = 0 ∨ l.fdOpen = false ∨ l.fileName = ""))
    (h1 : l.lastSuffix ≠ "") (h2 : l.lastSuffix ≠ genSuffixStr l now) :
    rotate l now none none rb =
      ⟨{ l with lastSuffix := genSuffixStr l now }, none,
        [.rename l.fileName (l.fileName ++ "." ++ genSuffixStr l now) true,
         .openFile l.fileName true],
        l.param.Compress, true⟩ := by
  unfold rotate
  simp [hg, h1, h2]

/-- Suffix-format selection of `part_001`'s `SetLogParam` (lines 270-288):
an exact match on day, hour, minute or second picks the corresponding
layout; any other duration leaves the previous format unchanged — there
is no fallback branch. -/
def setLogParamFormat (duration : Int) (prev : String) : String :=
  if duration = 24 * hourNs then formatDay
  else if duration = hourNs then formatHour
  else if duration = minuteNs then formatMin
  else if duration = secondNs then formatSec
  else prev

end Rotatelog.P1

namespace Rotatelog.P0

/-! ## The `unnamed/part_000` revision -/

open Rotatelog

/-- The pattern match of `part_000`'s `cleanOldLogs`: `FindString` of
`[0-9]{n}\.gz` when compression is on, of `[0-9]{n}` otherwise, where `n`
is the length of the suffix format in use. -/
def sweepMatch (compressFlag : Bool) (n : Nat) (fn : String) : Option String :=
  if compressFlag then findDigitRunGz n fn.toList else findDigitRun n fn.toList

/-- Source `cleanOldLogs` of `part_000` (lines 282-328) given the
directory listing `files` (`Readdirnames` output, bare names).  For each
name: match the pattern; on a match, strip ".gz" once when compression is
on, then remove the file when `isOverdue` says so.  Returns the removed
names and the names whose matched timestamp failed to parse (those are
reported by `isOverdue` and never removed). -/
def cleanOldLogs (cfg : RotateConfig) (suffixFormat : String) (now : Int)
    (files : List String) : List String × List String :=
  files.foldr
    (fun fn acc =>
      match sweepMatch cfg.Compress suffixFormat.length fn with
      | none => acc
      | some fs0 =>
          let ts := if cfg.Compress then stripGzOnce fs0 else fs0
          let od := isOverdue suffixFormat cfg.Duration cfg.Rotate now ts
          ⟨if od.1 then fn :: acc.1 else acc.1, if od.2 then fn :: acc.2 else acc.2⟩)
    ([], [])

end Rotatelog.P0

namespace Rotatelog

/-! ## Specification predicates for the sweep pattern

`digitRunAt n cs` says the pattern `[0-9]{n}` has a match somewhere in
`cs`; `digitRunGzAt n cs` likewise for `[0-9]{n}\.gz`. -/

def digitRunAt (n : Nat) (cs : List Char) : Prop :=
  ∃ pre mid post, cs = pre ++ mid ++ post ∧ mid.length = n ∧ mid.all Char.isDigit = true

def digitRunGzAt (n : Nat) (cs : List Char) : Prop :=
  ∃ pre mid post, cs = pre ++ mid ++ '.' :: 'g' :: 'z' :: post ∧
    mid.length = n ∧ mid.all Char.isDigit = true

theorem headRunMatch_iff (n : Nat) (cs : List Char) :
    headRunMatch n cs = true ↔ n ≤ cs.length ∧ (cs.take n).all Char.isDigit = true := by
  simp [headRunMatch]

theorem findDigitRun_isSome_iff (n : Nat) (hn : 0 < n) (cs : List Char) :
    (findDigitRun n cs).isSome = true ↔ digitRunAt n cs := by
  induction cs with
  | nil =>
      simp only [findDigitRun, Option.isSome_none, Bool.false_eq_true, false_iff]
      rintro ⟨pre, mid, post, h, hlen, -⟩
      have := congrArg List.length h
      simp at this
      omega
  | cons c cs ih =>
      by_cases hm : headRunMatch n (c :: cs) = true
      · simp only [findDigitRun, hm, if_true, Option.isSome_some, true_iff]
        obtain ⟨hle, hdig⟩ := (headRunMatch_iff n (c :: cs)).mp hm
        have hle' : n ≤ cs.length + 1 := by simpa using hle
        exact ⟨[], (c :: cs).take n, (c :: cs).drop n,
          by simp [List.take_append_drop],
          by simp [List.length_take]; omega, hdig⟩
      · have hstep : findDigitRun n (c :: cs) = findDigitRun n cs := by
          simp [findDigitRun, hm]
        rw [hstep, ih]
        constructor
        · rintro ⟨pre, mid, post, h, hlen, hdig⟩
          exact ⟨c :: pre, mid, post, by simp [h], hlen, hdig⟩
        · rintro ⟨pre, mid, post, h, hlen, hdig⟩
          cases pre with
          | nil =>
              exfalso
              apply hm
              rw [headRunMatch_iff]
              simp only [List.nil_append] at h
              constructor
              · have hL := congrArg List.length h
                simp [List.length_append] at hL
                simp only [List.length_cons]
                omega
              · have : (c :: cs).take n = mid := by
                  rw [h, ← hlen, List.take_left]
                rw [this]
                exact hdig
          | cons p pre =>
              simp only [List.cons_append, List.cons.injEq] at h
              exact ⟨pre, mid, post, h.2, hlen, hdig⟩

theorem findDigitRunGz_isSome_iff (n : Nat) (hn : 0 < n) (cs : List Char) :
    (findDigitRunGz n cs).isSome = true ↔ digitRunGzAt n cs := by
  induction cs with
  | nil =>
      simp only [findDigitRunGz, Option.isSome_none, Bool.false_eq_true, false_iff]
      rintro ⟨pre, mid, post, h, hlen, -⟩
      have := congrArg List.length h
      simp at this
      omega
  | cons c cs ih =>
      by_cases hm : (headRunMatch n (c :: cs) = true ∧ ((c :: cs).drop n).take 3 = ['.', 'g', 'z'])
      · have hstep : (findDigitRunGz n (c :: cs)).isSome = true := by
          simp only [findDigitRunGz]
          rw [if_pos ?_]
          · simp
          · exact ⟨hm.1, hm.2⟩
        simp only [hstep, true_iff]
        obtain ⟨hm1, hm2⟩ := hm
        obtain ⟨hle, hdig⟩ := (headRunMatch_iff n (c :: cs)).mp hm1
        have hle' : n ≤ cs.length + 1 := by simpa using hle
        refine ⟨[], (c :: cs).take n, ((c :: cs).drop n).drop 3, ?_, ?_, hdig⟩
        · have hdrop : (c :: cs).drop n = '.' :: 'g' :: 'z' :: ((c :: cs).drop n).drop 3 := by
            conv_lhs => rw [← List.take_append_drop 3 ((c :: cs).drop n)]
            rw [hm2]
            rfl
          conv_lhs => rw [← List.take_append_drop n (c :: cs)]
          rw [hdrop]
          rfl
        · simp [List.length_take]; omega
      · have hstep : findDigitRunGz n (c :: cs) = findDigitRunGz n cs := by
          simp only [findDigitRunGz]
          rw [if_neg]
          intro hc
          exact hm ⟨hc.1, hc.2⟩
        rw [hstep, ih]
        constructor
        · rintro ⟨pre, mid, post, h, hlen, hdig⟩
          exact ⟨c :: pre, mid, post, by simp [h], hlen, hdig⟩
        · rintro ⟨pre, mid, post, h, hlen, hdig⟩
          cases pre with
          | nil =>
              exfalso
              apply hm
              simp only [List.nil_append] at h
              have htake : (c :: cs).take n = mid := by
                rw [h, ← hlen]
                exact List.take_left mid ('.' :: 'g' :: 'z' :: post)
              have hdrop : (c :: cs).drop n = '.' :: 'g' :: 'z' :: post := by
                rw [h, ← hlen]
                exact List.drop_left mid ('.' :: 'g' :: 'z' :: post)
              refine ⟨?_, ?_⟩
              · rw [headRunMatch_iff]
                refine ⟨?_, htake ▸ hdig⟩
                have hL := congrArg List.length h
                simp [List.length_append] at hL
                simp only [List.length_cons]
                omega
              · rw [hdrop]
                rfl
          | cons p pre =>
              simp only [List.cons_append, List.cons.injEq] at h
              exact ⟨pre, mid, post, h.2, hlen, hdig⟩

end Rotatelog

namespace Rotatelog.P0

/-! ## Membership characterization of the retention sweep's two output lists -/

theorem cleanOldLogs_cons (cfg : RotateConfig) (fmt : String) (now : Int)
    (hd : String) (tl : List String) :
    cleanOldLogs cfg fmt now (hd :: tl) =
      match sweepMatch cfg.Compress fmt.length hd with
      | none => cleanOldLogs cfg fmt now tl
      | some fs0 =>
          let ts := if cfg.Compress then stripGzOnce fs0 else fs0
          let od := isOverdue fmt cfg.Duration cfg.Rotate now ts
          ⟨if od.1 then hd :: (cleanOldLogs cfg fmt now tl).1
            else (cleanOldLogs cfg fmt now tl).1,
           if od.2 then hd :: (cleanOldLogs cfg fmt now tl).2
            else (cleanOldLogs cfg fmt now tl).2⟩ := rfl

theorem cleanOldLogs_mem_fst (cfg : RotateConfig) (fmt : String) (now : Int)
    (files : List String) (fn : String) :
    fn ∈ (cleanOldLogs cfg fmt now files).1 ↔
      fn ∈ files ∧ ∃ m, sweepMatch cfg.Compress fmt.length fn = some m ∧
        (isOverdue fmt cfg.Duration cfg.Rotate now
          (if cfg.Compress then stripGzOnce m else m)).1 = true := by
  induction files with
  | nil => simp [cleanOldLogs]
  | cons hd tl ih =>
      rw [cleanOldLogs_cons]
      rcases hmatch : sweepMatch cfg.Compress fmt.length hd with _ | m0
      · simp only
        rw [ih]
        constructor
        · rintro ⟨htl, hq⟩
          exact ⟨List.mem_cons_of_mem hd htl, hq⟩
        · rintro ⟨hmem, hq⟩
          rcases List.mem_cons.mp hmem with heq | htl
          · subst heq
            obtain ⟨m, hm, -⟩ := hq
            rw [hmatch] at hm
            exact absurd hm (by simp)
          · exact ⟨htl, hq⟩
      · simp only
        by_cases hod : (isOverdue fmt cfg.Duration cfg.Rotate now
            (if cfg.Compress then stripGzOnce m0 else m0)).1 = true
        · rw [if_pos hod]
          constructor
          · intro hmem
            rcases List.mem_cons.mp hmem with heq | htl
            · subst heq
              exact ⟨List.mem_cons_self fn tl, m0, hmatch, hod⟩
            · obtain ⟨ht, hq⟩ := ih.mp htl
              exact ⟨List.mem_cons_of_mem hd ht, hq⟩
          · rintro ⟨hmem, hq⟩
            rcases List.mem_cons.mp hmem with heq | htl
            · subst heq
              exact List.mem_cons_self fn _
            · exact List.mem_cons_of_mem hd (ih.mpr ⟨htl, hq⟩)
        · rw [if_neg hod]
          rw [ih]
          constructor
          · rintro ⟨htl, hq⟩
            exact ⟨List.mem_cons_of_mem hd htl, hq⟩
          · rintro ⟨hmem, hq⟩
            rcases List.mem_cons.mp hmem with heq | htl
            · subst heq
              obtain ⟨m, hm, hdue⟩ := hq
              rw [hmatch] at hm
              obtain rfl : m0 = m := by injection hm
              exact absurd hdue hod
            · exact ⟨htl, hq⟩

theorem cleanOldLogs_mem_snd (cfg : RotateConfig) (fmt : String) (now : Int)
    (files : List String) (fn : String) :
    fn ∈ (cleanOldLogs cfg fmt now files).2 ↔
      fn ∈ files ∧ ∃ m, sweepMatch cfg.Compress fmt.length fn = some m ∧
        (isOverdue fmt cfg.Duration cfg.Rotate now
          (if cfg.Compress then stripGzOnce m else m)).2 = true := by
  induction files with
  | nil => simp [cleanOldLogs]
  | cons hd tl ih =>
      rw [cleanOldLogs_cons]
      rcases hmatch : sweepMatch cfg.Compress fmt.length hd with _ | m0
      · simp only
        rw [ih]
        constructor
        · rintro ⟨htl, hq⟩
          exact ⟨List.mem_cons_of_mem hd htl, hq⟩
        · rintro ⟨hmem, hq⟩
          rcases List.mem_cons.mp hmem with heq | htl
          · subst heq
            obtain ⟨m, hm, -⟩ := hq
            rw [hmatch] at hm
            exact absurd hm (by simp)
          · exact ⟨htl, hq⟩
      · simp only
        by_cases hod : (isOverdue fmt cfg.Duration cfg.Rotate now
            (if cfg.Compress then stripGzOnce m0 else m0)).2 = true
        · rw [if_pos hod]
          constructor
          · intro hmem
            rcases List.mem_cons.mp hmem with heq | htl
            · subst heq
              exact ⟨List.mem_cons_self fn tl, m0, hmatch, hod⟩
            · obtain ⟨ht, hq⟩ := ih.mp htl
              exact ⟨List.mem_cons_of_mem hd ht, hq⟩
          · rintro ⟨hmem, hq⟩
            rcases List.mem_cons.mp hmem with heq | htl
            · subst heq
              exact List.mem_cons_self fn _
            · exact List.mem_cons_of_mem hd (ih.mpr ⟨htl, hq⟩)
        · rw [if_neg hod]
          rw [ih]
          constructor
          · rintro ⟨htl, hq⟩
            exact ⟨List.mem_cons_of_mem hd htl, hq⟩
          · rintro ⟨hmem, hq⟩
            rcases List.mem_cons.mp hmem with heq | htl
            · subst heq
              obtain ⟨m, hm, hrep⟩ := hq
              rw [hmatch] at hm
              obtain rfl : m0 = m := by injection hm
              exact absurd hrep hod
            · exact ⟨htl, hq⟩

end Rotatelog.P0


namespace Rotatelog

/-- Modelled from the spec: "Supported granularities, smallest to largest:
second, minute, hour, day; pick the coarsest exact match to the configured
duration, else fall back to the finest granularity that round-trips
(second-level) to avoid suffix collisions."  Present only to be compared
with the source's selection rules. -/
def specSuffixFormat (duration : Int) : String :=
  if duration = 24 * hourNs then formatDay
  else if duration = hourNs then formatHour
  else if duration = minuteNs then formatMin
  else if duration = secondNs then formatSec
  else formatSec

/-! ## Claims -/

/-- C1: for every engine state whose stored bucket label (`lastSuffix` of
the `part_001` revision, the one that keeps a stored label) equals the
freshly computed label, `rotate` returns success (nil) and performs no
rename, open, or file creation; consequently two `rotate` calls computing
the same bucket label perform exactly one rename between them, the second
being a no-op returning success. -/
theorem rotate_idempotent_within_bucket :
    (∀ (l : P1.St) (now : Int) (r o rb : Option GoErr),
        l.lastSuffix = P1.genSuffixStr l now →
        (P1.rotate l now r o rb).ret = none ∧ (P1.rotate l now r o rb).ops = []) ∧
    (∀ (l : P1.St) (now1 now2 : Int) (rb r2 o2 rb2 : Option GoErr),
        ¬(l.param.Duration = 0 ∨ l.fdOpen = false ∨ l.fileName = "") →
        l.lastSuffix ≠ "" →
        l.lastSuffix ≠ P1.genSuffixStr l now1 →
        P1.genSuffixStr l now1 = P1.genSuffixStr l now2 →
        (P1.rotate l now1 none none rb).ops.countP FSOp.isRename = 1 ∧
        (P1.rotate (P1.rotate l now1 none none rb).st now2 r2 o2 rb2).ret = none ∧
        (P1.rotate (P1.rotate l now1 none none rb).st now2 r2 o2 rb2).ops = []) := by
  constructor
  · exact fun l now r o rb h => P1.rotate_noop_of_eq l now r o rb h
  · intro l now1 now2 rb r2 o2 rb2 hg h1 h2 hsame
    rw [P1.rotate_success_eq l now1 rb hg h1 h2]
    refine ⟨rfl, ?_, ?_⟩
    · exact (P1.rotate_noop_of_eq _ now2 r2 o2 rb2 hsame).1
    · exact (P1.rotate_noop_of_eq _ now2 r2 o2 rb2 hsame).2

def c1St : P1.St := ⟨⟨5, secondNs, true⟩, "app.log", "20240101000000", true, formatSec⟩

def c1Now1 : Int := (daysFromCivil 2024 5 5 * 86400) * nsPerSecond

def c1Now2 : Int := c1Now1 + 500000000

theorem rotate_idempotent_within_bucket_witness :
    (P1.rotate c1St c1Now1 none none none).ops.countP FSOp.isRename = 1 ∧
    (P1.rotate (P1.rotate c1St c1Now1 none none none).st c1Now2 none none none).ret = none ∧
    (P1.rotate (P1.rotate c1St c1Now1 none none none).st c1Now2 none none none).ops = [] :=
  rotate_idempotent_within_bucket.2 c1St c1Now1 c1Now2 none none none none
    (by decide) (by decide) (by decide) (by decide)

/-- C2: in `log.go`'s `Rotate`, whenever the rename succeeds and the
reopen of the active path fails with error `e`, the function attempts the
restoring rename of the archive back to the original path and returns
`e` itself — for every outcome of that restoring rename — so it never
returns success in this situation. -/
theorem rotate_open_failure_reports_ioerror :
    ∀ (l : LogGo.LoggerSt) (now : Int) (fn : String) (e : GoErr) (rb : Option GoErr),
      l.writerFile = some fn →
      (LogGo.Rotate l now none (some e) rb).ret = some e ∧
      FSOp.rename
          (fn ++ "." ++ formatTime (LogGo.rotateSuffixFormat l.rotateCfg.Duration)
            (truncDur l.rotateCfg.Duration now)) fn rb.isNone
        ∈ (LogGo.Rotate l now none (some e) rb).ops ∧
      (LogGo.Rotate l now none (some e) rb).ret ≠ none := by
  intro l now fn e rb h
  obtain ⟨cfg, wf, sf⟩ := l
  simp only at h
  subst h
  simp [LogGo.Rotate]

def c2St : LogGo.LoggerSt := ⟨⟨5, secondNs, true⟩, some "app.log", ""⟩

theorem rotate_open_failure_reports_ioerror_witness :
    (LogGo.Rotate c2St 0 none (some "permission denied") none).ret = some "permission denied" ∧
    FSOp.rename
        ("app.log" ++ "." ++ formatTime (LogGo.rotateSuffixFormat c2St.rotateCfg.Duration)
          (truncDur c2St.rotateCfg.Duration 0)) "app.log" (none : Option GoErr).isNone
      ∈ (LogGo.Rotate c2St 0 none (some "permission denied") none).ops ∧
    (LogGo.Rotate c2St 0 none (some "permission denied") none).ret ≠ none :=
  rotate_open_failure_reports_ioerror c2St 0 "app.log" "permission denied" none rfl

def c3Now : Int := (daysFromCivil 2024 5 5 * 86400) * nsPerSecond

/-- C3 counterexample: with bucket duration one second (suffix format
`formatSec`, width 14), retain 5 and compression off, a directory listing
containing only the active file's own base name `app20000101000000.log`
(the file at `basePath` itself, no archive suffix) is swept and the sweep
deletes the active file, because the unanchored `[0-9]{14}` match fires on
the digits embedded in the base name and they parse to an old timestamp.
The claim says the active file at `basePath` is never a deletion
candidate and that only names matching the archive pattern are deleted. -/
theorem sweep_removes_digit_bearing_active_file :
    (P0.cleanOldLogs ⟨5, secondNs, false⟩ formatSec c3Now ["app20000101000000.log"]).1
      = ["app20000101000000.log"] := by decide

/-- C3 amended: the `part_000` retention sweep deletes exactly those
listing entries whose name contains, anywhere, a digit substring of the
suffix-format width (followed by ".gz" when compression is enabled) whose
leftmost occurrence parses to a timestamp older than
`Duration * Rotate`; all other entries are untouched.  The active file is
therefore untouched only when its own name contains no such digit run,
not unconditionally.  The second and third conjuncts identify the
scanner's success with the existence of such a substring. -/
theorem sweep_removes_exactly_overdue_digit_run_matches :
    (∀ (cfg : RotateConfig) (fmt : String) (now : Int) (files : List String) (fn : String),
        fn ∈ (P0.cleanOldLogs cfg fmt now files).1 ↔
          fn ∈ files ∧ ∃ m, P0.sweepMatch cfg.Compress fmt.length fn = some m ∧
            (isOverdue fmt cfg.Duration cfg.Rotate now
              (if cfg.Compress then stripGzOnce m else m)).1 = true) ∧
    (∀ (n : Nat) (cs : List Char), 0 < n →
        ((findDigitRun n cs).isSome = true ↔ digitRunAt n cs)) ∧
    (∀ (n : Nat) (cs : List Char), 0 < n →
        ((findDigitRunGz n cs).isSome = true ↔ digitRunGzAt n cs)) :=
  ⟨fun cfg fmt now files fn => P0.cleanOldLogs_mem_fst cfg fmt now files fn,
   fun n cs hn => findDigitRun_isSome_iff n hn cs,
   fun n cs hn => findDigitRunGz_isSome_iff n hn cs⟩

theorem sweep_removes_exactly_overdue_digit_run_matches_witness :
    (0 : Nat) < 14 ∧
    ((findDigitRun 14 "app20000101000000.log".toList).isSome = true ↔
      digitRunAt 14 "app20000101000000.log".toList) :=
  ⟨by decide,
   sweep_removes_exactly_overdue_digit_run_matches.2.1 14
     "app20000101000000.log".toList (by decide)⟩

/-- C4: a sweep candidate whose name matches the archive pattern but
whose extracted label fails to parse under the current suffix format is
never deleted and is reported through the diagnostic channel (the parse
failure is logged inside `isOverdue`, which then returns false — the
early return of `log.go` / `part_000`). -/
theorem sweep_skips_and_reports_unparseable_match :
    ∀ (cfg : RotateConfig) (fmt : String) (now : Int) (files : List String) (fn m : String),
      P0.sweepMatch cfg.Compress fmt.length fn = some m →
      parseTime fmt (if cfg.Compress then stripGzOnce m else m) = none →
      fn ∉ (P0.cleanOldLogs cfg fmt now files).1 ∧
      (fn ∈ files → fn ∈ (P0.cleanOldLogs cfg fmt now files).2) := by
  intro cfg fmt now files fn m hm hp
  have hod : isOverdue fmt cfg.Duration cfg.Rotate now
      (if cfg.Compress then stripGzOnce m else m) = (false, true) := by
    unfold isOverdue
    rw [hp]
  constructor
  · intro hmem
    obtain ⟨-, m', hm', hdue⟩ := (P0.cleanOldLogs_mem_fst cfg fmt now files fn).mp hmem
    rw [hm] at hm'
    obtain rfl : m = m' := by injection hm'
    rw [hod] at hdue
    simp at hdue
  · intro hfiles
    exact (P0.cleanOldLogs_mem_snd cfg fmt now files fn).mpr
      ⟨hfiles, m, hm, by rw [hod]⟩

def c4Files : List String := ["app99999999999999.gz"]

theorem sweep_skips_and_reports_unparseable_match_witness :
    "app99999999999999.gz" ∉ (P0.cleanOldLogs ⟨5, secondNs, true⟩ formatSec 0 c4Files).1 ∧
    ("app99999999999999.gz" ∈ c4Files →
      "app99999999999999.gz" ∈ (P0.cleanOldLogs ⟨5, secondNs, true⟩ formatSec 0 c4Files).2) :=
  sweep_skips_and_reports_unparseable_match ⟨5, secondNs, true⟩ formatSec 0 c4Files
    "app99999999999999.gz" "99999999999999.gz" (by decide) (by decide)

/-- C5: `log.go`'s `compress` removes the original archive exactly when
the open of the source, the creation of the `.gz` target and the copy all
succeeded; on any failure among those three, a present original is still
present afterwards. -/
theorem compress_removes_original_only_on_full_success :
    ∀ (fs : List String) (path : String) (o c k : Option GoErr),
      ((LogGo.compress fs path o c k).removed = true ↔ o = none ∧ c = none ∧ k = none) ∧
      (¬(o = none ∧ c = none ∧ k = none) → path ∈ fs →
        path ∈ (LogGo.compress fs path o c k).fs) := by
  intro fs path o c k
  rcases o with _ | eo
  · rcases c with _ | ec
    · rcases k with _ | ek
      · simp [LogGo.compress]
      · refine ⟨by simp [LogGo.compress], ?_⟩
        intro _ hin
        simp only [LogGo.compress]
        split_ifs with hg
        · exact hin
        · exact List.mem_append_left _ hin
    · simp [LogGo.compress]
  · simp [LogGo.compress]

theorem compress_removes_original_only_on_full_success_witness :
    ¬((none : Option GoErr) = none ∧ (none : Option GoErr) = none ∧
        (some "disk full" : Option GoErr) = none) ∧
    "app.log.20240101120000" ∈
      (LogGo.compress ["app.log.20240101120000"] "app.log.20240101120000"
        none none (some "disk full")).fs :=
  ⟨by decide,
   (compress_removes_original_only_on_full_success ["app.log.20240101120000"]
      "app.log.20240101120000" none none (some "disk full")).2 (by decide) (by decide)⟩

/-- C6: in the `part_001` revision (the one carrying the single-flight
guard), a `compress` request arriving while the `compressing` flag is
already set is a silent skip: the file system is untouched, nothing is
removed, no diagnostic is emitted, and nothing is queued — while a
request arriving with the flag clear and all I/O succeeding does process
the archive (so the skip is caused by the guard alone). -/
theorem compress_single_flight_silent_skip :
    ∀ (fs : List String) (path : String) (o c k : Option GoErr),
      (P1.compress true fs path o c k).fs = fs ∧
      (P1.compress true fs path o c k).removed = false ∧
      (P1.compress true fs path o c k).diags = 0 ∧
      (P1.compress false fs path none none none).removed = true := by
  intro fs path o c k
  refine ⟨rfl, rfl, rfl, ?_⟩
  simp [P1.compress]

/-- C7 counterexample: for a one-hour bucket duration, `log.go`'s
`Rotate` selects the minute-level format, not the hour-level format the
claimed coarsest-exact-match rule produces; and for a 90-second duration
`part_001`'s `SetLogParam` applies no second-level fallback at all,
leaving the previous (here empty) format in place. -/
theorem suffix_format_choice_counterexample :
    LogGo.rotateSuffixFormat hourNs = formatMin ∧
    specSuffixFormat hourNs = formatHour ∧
    LogGo.rotateSuffixFormat hourNs ≠ specSuffixFormat hourNs ∧
    P1.setLogParamFormat (90 * secondNs) "" = "" ∧
    specSuffixFormat (90 * secondNs) = formatSec := by decide

/-- C7 amended: `log.go`'s `Rotate` picks the second-level format below
one minute and the minute-level format otherwise; this agrees with the
spec's coarsest-exact-match-with-second-fallback rule exactly for
durations of at most one minute and diverges for every longer duration.
`part_001`'s `SetLogParam` picks the exact-match format for day, hour,
minute or second and otherwise leaves the previous format unchanged (no
fallback). -/
theorem suffix_format_selection_amended :
    (∀ d : Int, LogGo.rotateSuffixFormat d = specSuffixFormat d ↔ d ≤ minuteNs) ∧
    (∀ (d : Int) (prev : String),
      d ≠ 24 * hourNs → d ≠ hourNs → d ≠ minuteNs → d ≠ secondNs →
      P1.setLogParamFormat d prev = prev) := by
  constructor
  · intro d
    unfold LogGo.rotateSuffixFormat specSuffixFormat
    unfold minuteNs hourNs secondNs nsPerSecond
    split_ifs <;>
      simp_all [formatDay, formatHour, formatMin, formatSec] <;>
      omega
  · intro d prev h1 h2 h3 h4
    simp [P1.setLogParamFormat, h1, h2, h3, h4]

theorem suffix_format_selection_amended_witness :
    LogGo.rotateSuffixFormat secondNs = specSuffixFormat secondNs ∧
    P1.setLogParamFormat (90 * secondNs) "200601021504" = "200601021504" :=
  ⟨(suffix_format_selection_amended.1 secondNs).mpr (by decide),
   suffix_format_selection_amended.2 (90 * secondNs) "200601021504"
     (by decide) (by decide) (by decide) (by decide)⟩

/-- C8: `log.go`'s `StartRotate` fails synchronously with
`errInvalidRotateConfig` — without starting the background loop — exactly
on an absent config, `Rotate ≤ 0`, or `Duration` below one second, and on
a valid config starts the loop, returns nil, and leaves the configuration
unmodified (no clamping). -/
theorem startRotate_rejects_invalid_config :
    ∀ cfg : Option RotateConfig,
      ((cfg = none ∨ ∃ c, cfg = some c ∧ (c.Rotate ≤ 0 ∨ c.Duration < secondNs)) →
        (LogGo.StartRotate cfg).ret = some LogGo.errInvalidRotateConfig ∧
        (LogGo.StartRotate cfg).loopStarted = false) ∧
      (∀ c : RotateConfig, cfg = some c → 0 < c.Rotate → secondNs ≤ c.Duration →
        (LogGo.StartRotate cfg).ret = none ∧
        (LogGo.StartRotate cfg).loopStarted = true ∧
        (LogGo.StartRotate cfg).cfgAfter = some c) := by
  intro cfg
  constructor
  · rintro (rfl | ⟨c, rfl, hbad⟩)
    · exact ⟨rfl, rfl⟩
    · have heq : LogGo.StartRotate (some c) =
          ⟨some LogGo.errInvalidRotateConfig, false, some c⟩ := if_pos hbad
      rw [heq]
      exact ⟨rfl, rfl⟩
  · rintro c rfl hr hd
    have hok : ¬(c.Rotate ≤ 0 ∨ c.Duration < secondNs) := by
      push_neg
      exact ⟨hr, hd⟩
    have heq : LogGo.StartRotate (some c) = ⟨none, true, some c⟩ := if_neg hok
    rw [heq]
    exact ⟨rfl, rfl, rfl⟩

theorem startRotate_rejects_invalid_config_witness :
    (LogGo.StartRotate (some ⟨0, secondNs, false⟩)).ret = some LogGo.errInvalidRotateConfig ∧
    (LogGo.StartRotate (some ⟨0, secondNs, false⟩)).loopStarted = false ∧
    (LogGo.StartRotate (some ⟨5, secondNs, false⟩)).ret = none ∧
    (LogGo.StartRotate (some ⟨5, secondNs, false⟩)).loopStarted = true ∧
    (LogGo.StartRotate (some ⟨5, secondNs, false⟩)).cfgAfter = some ⟨5, secondNs, false⟩ := by
  have h1 := (startRotate_rejects_invalid_config (some ⟨0, secondNs, false⟩)).1
    (Or.inr ⟨⟨0, secondNs, false⟩, rfl, Or.inl (by decide)⟩)
  have h2 := (startRotate_rejects_invalid_config (some ⟨5, secondNs, false⟩)).2
    ⟨5, secondNs, false⟩ rfl (by decide) (by decide)
  exact ⟨h1.1, h1.2, h2.1, h2.2.1, h2.2.2⟩

/-- C9 (code bug): after `Stop` closes `rotateCh`, every observable state
of the channel field still makes the rotation loop call `Rotate` again
and never exit: a receive on the closed channel completes immediately (so
the loop spins, rotating each iteration), and once the field is nil the
timer case fires at the next bucket boundary instead; the `for` loop body
has no exit path at all.  This contradicts the claim that the loop exits
after its current iteration and never invokes rotation again. -/
theorem stop_leaves_rotation_loop_running :
    LogGo.Stop .opened = [.closedCh, .nilCh] ∧
    (∀ tf : Bool, LogGo.loopBody (LogGo.selectStep .closedCh tf) = ⟨true, false⟩) ∧
    LogGo.loopBody (LogGo.selectStep .nilCh true) = ⟨true, false⟩ ∧
    (∀ (ch : LogGo.ChanSt) (tf : Bool), (LogGo.loopBody (LogGo.selectStep ch tf)).loopExits = false) := by
  refine ⟨rfl, ?_, rfl, ?_⟩
  · intro tf
    cases tf <;> rfl
  · intro ch tf
    cases ch <;> cases tf <;> rfl

/-- C10: `NewLevel` maps the six names "debug", "info", "notice",
"warning", "error", "critical" to their levels and every other string to
`LevelError`. -/
theorem newLevel_names_and_default :
    (NewLevel "debug" = .debug ∧ NewLevel "info" = .info ∧ NewLevel "notice" = .notice ∧
     NewLevel "warning" = .warning ∧ NewLevel "error" = .error ∧
     NewLevel "critical" = .critical) ∧
    (∀ s : String,
      s ∉ (["debug", "info", "notice", "warning", "error", "critical"] : List String) →
      NewLevel s = .error) := by
  refine ⟨by decide, ?_⟩
  intro s h
  simp only [List.mem_cons, List.not_mem_nil, or_false, not_or] at h
  obtain ⟨h1, h2, h3, h4, h5, h6⟩ := h
  simp [NewLevel, h1, h2, h3, h4, h5, h6]

theorem newLevel_names_and_default_witness :
    "fatal" ∉ (["debug", "info", "notice", "warning", "error", "critical"] : List String) ∧
    NewLevel "fatal" = .error :=
  ⟨by decide, newLevel_names_and_default.2 "fatal" (by decide)⟩

end Rotatelog
